import Mathlib

/-!
Verification development for the MockMate mock-API server.

This file gives a shallow embedding, in Lean, of the request-matching /
scenario-resolution engine (packages/server/src/services/matcher.ts), the
mock route handler (routes/mock.ts), the proxy-side resolver
(services/proxy-handler.ts), the certificate LRU cache
(services/cert-cache.ts), the leaf-certificate issuer
(services/certs/generator.ts as reproduced in certs/profile.ts), the
upstream forwarders (proxy-handler.ts / services/proxy.ts) and the MITM
request framing loop (services/proxy-server.ts), together with theorems
settling the specification claims about those components.

Conventions of the embedding:
* TypeScript strings are Lean `String`s; raw socket buffers are `List Char`
  (the proxied traffic is HTTP/1.1 text, one byte per character).
* JavaScript objects used as string maps are association lists
  `List (String × String)` with insert-or-overwrite assignment
  (`objSet`), which preserves the original key position on overwrite,
  exactly as JS property assignment does.
* Optional (possibly `undefined`) fields are `Option _`; JS truthiness
  tests on strings and booleans are spelled out (`jsFalsyName`,
  `jsTruthyOptStr`).
* Untyped JSON scenario bodies are a `Json` value type.
-/

namespace MockMate

/-- Untyped JSON values, used for scenario bodies. -/
inductive Json where
  | null
  | bool (b : Bool)
  | num (n : Int)
  | str (s : String)
  | arr (elems : List Json)
  | obj (fields : List (String × Json))

/-- HTTP methods supported by MockMate (types.ts, `HttpMethod`). -/
inductive HttpMethod where
  | GET | POST | PUT | DELETE | PATCH
  deriving DecidableEq

/-- A scenario (types.ts, `Scenario`): one named response variant.  Only
the fields read by the embedded functions are modelled; `headers` and
`responseHeaders` are both kept because the built-in fallback scenario in
matcher.ts sets `headers` while `buildResponse` reads `responseHeaders`. -/
structure Scenario where
  name : String
  statusCode : Nat
  body : Json
  headersField : Option (List (String × String)) := none
  responseHeaders : Option (List (String × String)) := none
  delay : Option Nat := none

/-- A resource (types.ts, `Resource`): a mocked endpoint.  `id`,
`description` and timestamps are not read by the embedded code and are
omitted. -/
structure Resource where
  method : HttpMethod
  path : String
  scenarios : List Scenario
  passthrough : Option Bool := none

/-- A project (types.ts, `Project`), restricted to the fields read by the
resolution engine. -/
structure Project where
  activeScenario : String
  baseUrl : Option String := none
  passthroughEnabled : Option Bool := none

/-- JS object property assignment `obj[k] = v` on a string map: an
existing key keeps its position and gets the new value, a new key is
appended. -/
def objSet (o : List (String × String)) (k v : String) : List (String × String) :=
  if o.any (fun p => p.1 = k) then
    o.map (fun p => if p.1 = k then (k, v) else p)
  else
    o ++ [(k, v)]

/-- JS object spread overlay: start from `base` and assign every pair of
`extra` in order (later keys win), as in a spread of two object literals. -/
def overlayObj (base extra : List (String × String)) : List (String × String) :=
  extra.foldl (fun acc p => objSet acc p.1 p.2) base

/-- Lookup in a JS string-map object. -/
def objGet (o : List (String × String)) (k : String) : Option String :=
  (o.find? (fun p => p.1 = k)).map Prod.snd

/-! ## Path pattern compilation (matcher.ts, `pathToRegex`)

`pathToRegex` escapes regex metacharacters, replaces every `:identifier`
occurrence (identifier = `[a-zA-Z_][a-zA-Z0-9_]*`) with the capturing
group `([^/]+)`, records the identifiers in order, and anchors the
pattern with `^...$`.  The embedding compiles the pattern string into a
token list: every `:identifier` occurrence becomes a parameter token
(matching one or more non-slash characters) and every other character a
literal token.  The escaping pass only makes metacharacters literal, which
the token view already does, and it neither creates nor destroys
`:identifier` occurrences (it only inserts backslashes before characters
that are not identifier characters and not `:`). -/

/-- First character of a `:param` identifier: `[a-zA-Z_]`. -/
def identStart (c : Char) : Bool := c.isAlpha || c = '_'

/-- Subsequent character of a `:param` identifier: `[a-zA-Z0-9_]`. -/
def identCont (c : Char) : Bool := c.isAlphanum || c = '_'

/-- One token of a compiled path pattern. -/
inductive PatternToken where
  | lit (c : Char)
  | param (name : String)

/-- Split off the maximal run of identifier-continuation characters. -/
def takeIdent : List Char → List Char × List Char
  | [] => ([], [])
  | c :: cs =>
    if identCont c then
      let p := takeIdent cs
      (c :: p.1, p.2)
    else
      ([], c :: cs)

/-- Tokenize a path pattern: each `:identifier` becomes a parameter
token, everything else a literal.  The first argument is fuel keeping the
recursion structural (so that concrete patterns evaluate inside proofs);
every step consumes at least one character and exactly one unit of fuel,
so fuel equal to the character count never runs out. -/
def tokenizeFuel : Nat → List Char → List PatternToken
  | 0, _ => []
  | _ + 1, [] => []
  | fuel + 1, ':' :: c :: cs =>
    if identStart c then
      let p := takeIdent cs
      PatternToken.param (String.mk (c :: p.1)) :: tokenizeFuel fuel p.2
    else
      PatternToken.lit ':' :: tokenizeFuel fuel (c :: cs)
  | fuel + 1, c :: cs => PatternToken.lit c :: tokenizeFuel fuel cs

/-- The token list of a compiled pattern (matcher.ts `pathToRegex`,
regex part). -/
def pathToRegexTokens (path : String) : List PatternToken :=
  tokenizeFuel path.data.length path.data

/-- The parameter name carried by a token, if any. -/
def paramNameOf : PatternToken → Option String
  | PatternToken.param n => some n
  | PatternToken.lit _ => none

/-- The recorded parameter names of a compiled pattern, in declaration
order (matcher.ts `pathToRegex`, `paramNames`). -/
def pathToRegexParamNames (path : String) : List String :=
  (pathToRegexTokens path).filterMap paramNameOf

/-- Characters matched by the `[^/]+` capturing group. -/
def nonSlash (c : Char) : Bool := c ≠ '/'

/-- Try `f` on `k, k-1, ..., 1` and return the first success: the greedy,
backtracking behaviour of a `+` quantifier. -/
def descendFind {β : Type} (f : Nat → Option β) : Nat → Option β
  | 0 => none
  | k + 1 =>
    match f (k + 1) with
    | some r => some r
    | none => descendFind f k

/-- Anchored matching of a compiled pattern against a path, producing the
list of captured groups on success (the semantics of
`new RegExp('^' + pattern + '$')` applied with `.match`). -/
def matchToks : List PatternToken → List Char → Option (List (List Char))
  | [], s => if s.isEmpty then some [] else none
  | PatternToken.lit c :: ts, s =>
    match s with
    | [] => none
    | d :: ds => if c = d then matchToks ts ds else none
  | PatternToken.param _ :: ts, s =>
    descendFind
      (fun k => (matchToks ts (s.drop k)).map (fun caps => s.take k :: caps))
      (s.takeWhile nonSlash).length

/-- `regex.test(path)` for a compiled pattern. -/
def regexTest (pattern path : String) : Bool :=
  (matchToks (pathToRegexTokens pattern) path.data).isSome

/-- matcher.ts `extractParams`: re-run the compiled pattern and bind each
parameter name, in order, to its capture (no match yields the empty
object). -/
def extractParams (path pattern : String) : List (String × String) :=
  match matchToks (pathToRegexTokens pattern) path.data with
  | none => []
  | some caps =>
    ((pathToRegexParamNames pattern).zip (caps.map fun c => String.mk c)).foldl
      (fun o p => objSet o p.1 p.2) []

/-- Path normalization in matcher.ts `matchRequest`: strip one trailing
slash unless the path is exactly the root. -/
def stripTrailingSlash (p : String) : String :=
  if p = "/" then p
  else if p.data.getLast? = some '/' then String.mk p.data.dropLast else p

/-- matcher.ts `matchRequest`: first resource, in caller order, whose
method equals the request method and whose compiled pattern matches the
normalized path; returns the resource with its extracted parameters. -/
def matchRequest (method : HttpMethod) (path : String) (resources : List Resource) :
    Option (Resource × List (String × String)) :=
  let np := stripTrailingSlash path
  resources.findSome? fun r =>
    if r.method = method then
      let nrp := stripTrailingSlash r.path
      match matchToks (pathToRegexTokens nrp) np.data with
      | some _ => some (r, extractParams np nrp)
      | none => none
    else none

/-! ## Scenario resolution (matcher.ts, `resolveScenario`) -/

/-- The built-in fallback scenario literal in matcher.ts (status 200,
empty object body, empty `headers`, zero delay). -/
def fallbackScenario : Scenario :=
  { name := "default"
  , statusCode := 200
  , body := Json.obj []
  , headersField := some []
  , responseHeaders := none
  , delay := some 0 }

/-- JS falsiness of the optional `scenarioName` argument: `undefined` or
the empty string. -/
def jsFalsyName : Option String → Bool
  | none => true
  | some s => s = ""

/-- The shared fallback chain of `resolveScenario`: the `default`-named
scenario, else the first declared scenario, else the built-in fallback. -/
def defaultThenFirst (resource : Resource) : Scenario :=
  match resource.scenarios.find? (fun s => s.name = "default") with
  | some d => d
  | none =>
    match resource.scenarios.head? with
    | some s => s
    | none => fallbackScenario

/-- matcher.ts `resolveScenario`: a falsy requested name goes straight to
the fallback chain; otherwise the scenario with the requested name is
looked up, falling back to the same chain when absent. -/
def resolveScenario (resource : Resource) (scenarioName : Option String) : Scenario :=
  if jsFalsyName scenarioName then
    defaultThenFirst resource
  else
    match scenarioName with
    | none => defaultThenFirst resource
    | some n =>
      match resource.scenarios.find? (fun s => s.name = n) with
      | some s => s
      | none => defaultThenFirst resource

/-! ## Response building (matcher.ts, `buildResponse`) -/

/-- matcher.ts `ResponseConfig`.  The interface declares no `passthrough`
property; the handlers nevertheless read `responseConfig.passthrough`, so
the runtime value of that property is modelled explicitly as an optional
field, which `buildResponse` leaves absent (`none`). -/
structure ResponseConfig where
  statusCode : Nat
  headersOut : List (String × String)
  body : Json
  delay : Nat
  scenario : String
  passthrough : Option Bool

/-- matcher.ts `buildResponse`: default `Content-Type` overlaid with the
scenario's declared response headers; body passed through as-is;
delay defaulted to 0; resolved scenario name recorded. -/
def buildResponse (scenario : Scenario) : ResponseConfig :=
  { statusCode := scenario.statusCode
  , headersOut := overlayObj [("Content-Type", "application/json")]
      (scenario.responseHeaders.getD [])
  , body := scenario.body
  , delay := scenario.delay.getD 0
  , scenario := scenario.name
  , passthrough := none }

/-- matcher.ts `handleRequest`: match, then select the scenario name as
`headerScenario ?? activeScenario` (nullish coalescing: only an absent
header falls back to the active scenario), resolve and build. -/
def handleRequest (method : HttpMethod) (path : String) (resources : List Resource)
    (activeScenario : String) (headerScenario : Option String) : Option ResponseConfig :=
  match matchRequest method path resources with
  | none => none
  | some (r, _params) =>
    let scenarioName := headerScenario.getD activeScenario
    some (buildResponse (resolveScenario r (some scenarioName)))

/-! ## Resolution outcomes (routes/mock.ts and proxy-handler.ts)

Both handlers are effectful Express/socket code; their decision logic is
pure in the request data and the active project, and that decision is
what is embedded: which of mock / forward / not-found / no-context the
handler commits to.  Logging, delays and actual network calls are outside
the decision. -/

/-- JS truthiness of an optional string (absent and the empty string are
falsy). -/
def jsTruthyOptStr : Option String → Bool
  | none => false
  | some s => s ≠ ""

/-- routes/mock.ts `canProxy`: the project has passthrough enabled and a
truthy base URL. -/
def canProxy (p : Project) : Bool :=
  p.passthroughEnabled.getD false && jsTruthyOptStr p.baseUrl

/-- Outcome of the direct-connect handler `mockRequestHandler`. -/
inductive MockOutcome where
  | noProject
  | proxied
  | notFound
  | mock (rc : ResponseConfig)

/-- routes/mock.ts `mockRequestHandler` (passthrough-aware version):
503 without an active project; on no match forward when `canProxy`, else
404; on a match forward when the response config's `passthrough`
property is truthy and `canProxy`, else return the mock. -/
def mockRequestHandler (activeProject : Option Project) (resources : List Resource)
    (method : HttpMethod) (path : String) (headerScenario : Option String) : MockOutcome :=
  match activeProject with
  | none => MockOutcome.noProject
  | some p =>
    match handleRequest method path resources p.activeScenario headerScenario with
    | none => if canProxy p then MockOutcome.proxied else MockOutcome.notFound
    | some rc =>
      if rc.passthrough.getD false && canProxy p then MockOutcome.proxied
      else MockOutcome.mock rc

/-- Hostname of a URL, modelling `new URL(u).hostname` for the http(s)
URLs the code handles: the text after `://` up to the first `/`, `?`,
`#` or `:`; `none` models the constructor throwing (no scheme separator
or empty host). -/
def urlHostname (u : String) : Option String :=
  match afterSchemeSep u.data with
  | none => none
  | some rest =>
    let hostport := rest.takeWhile fun c => c ≠ '/' && c ≠ '?' && c ≠ '#'
    let host := hostport.takeWhile fun c => c ≠ ':'
    if host.isEmpty then none else some (String.mk host)
where
  afterSchemeSep : List Char → Option (List Char)
    | ':' :: '/' :: '/' :: rest => some rest
    | _ :: rest => afterSchemeSep rest
    | [] => none

/-- Outcome of `resolveProxyRequest` (proxy-handler.ts):
`tunnel` is the `null` return (caller blind-tunnels), `forwarded` means
`forwardRequest` is invoked, `mock` returns the built mock response. -/
inductive ProxyOutcome where
  | tunnel
  | forwarded
  | mock (rc : ResponseConfig)

/-- proxy-handler.ts `resolveProxyRequest` decision: null without an
active project, a falsy base URL, an unparsable base URL or a host
mismatch; on no resource match always forward; on a match forward when
the response config's `passthrough` property is truthy (the base URL is
truthy here), else return the mock. -/
def resolveProxyRequest (activeProject : Option Project) (resources : List Resource)
    (method : HttpMethod) (path : String) (headerScenario : Option String)
    (host : String) : ProxyOutcome :=
  match activeProject with
  | none => ProxyOutcome.tunnel
  | some p =>
    if !jsTruthyOptStr p.baseUrl then ProxyOutcome.tunnel
    else
      match urlHostname (p.baseUrl.getD "") with
      | none => ProxyOutcome.tunnel
      | some projectHost =>
        if projectHost ≠ host then ProxyOutcome.tunnel
        else
          match handleRequest method path resources p.activeScenario headerScenario with
          | none => ProxyOutcome.forwarded
          | some rc =>
            if rc.passthrough.getD false && jsTruthyOptStr p.baseUrl then
              ProxyOutcome.forwarded
            else ProxyOutcome.mock rc

/-! ## Certificate cache (services/cert-cache.ts)

The cache is a JS `Map` (iteration in insertion order) from hostname to
certificate data, embedded as an association list whose head is the
oldest (least recently used) entry and whose last element is the most
recently used.  The certificate generator is passed in as a function so
the cache logic stays pure. -/

/-- State of a `CertCache` instance. -/
structure CertCache (α : Type) where
  maxSize : Nat
  entries : List (String × α) := []
  hits : Nat := 0
  misses : Nat := 0
  deriving DecidableEq

/-- A fresh cache (the constructor). -/
def CertCache.init (α : Type) (maxSize : Nat) : CertCache α :=
  { maxSize := maxSize }

/-- `Map.delete(key)`: remove the (unique) entry with the key, keeping
order. -/
def eraseKey {α : Type} (d : String) : List (String × α) → List (String × α)
  | [] => []
  | e :: es => if e.1 = d then es else e :: eraseKey d es

/-- cert-cache.ts `getCert`.  On a hit the entry is deleted and
re-inserted at the end (most recently used) and `hits` increments.  On a
miss, when the map is at capacity the first (oldest) key is deleted —
but, mirroring `if (oldestKey)`, only when that key is truthy, i.e. not
the empty string — then a fresh certificate is generated and appended,
and `misses` increments. -/
def CertCache.getCert {α : Type} (gen : String → α) (c : CertCache α) (domain : String) :
    α × CertCache α :=
  match c.entries.find? (fun e => e.1 = domain) with
  | some e =>
    (e.2, { c with hits := c.hits + 1
                 , entries := eraseKey domain c.entries ++ [(domain, e.2)] })
  | none =>
    let afterEvict :=
      if c.entries.length ≥ c.maxSize then
        match c.entries.head? with
        | some (k, _) => if k ≠ "" then c.entries.tail else c.entries
        | none => c.entries
      else c.entries
    let cert := gen domain
    (cert, { c with misses := c.misses + 1
                  , entries := afterEvict ++ [(domain, cert)] })

/-- cert-cache.ts `clear`: drop all entries and reset both counters. -/
def CertCache.clearCache {α : Type} (c : CertCache α) : CertCache α :=
  { c with entries := [], hits := 0, misses := 0 }

/-- One call in a usage history of the cache. -/
inductive CacheOp where
  | get (domain : String)
  | clear

/-- Run a sequence of `getCert`/`clear` calls. -/
def runOps {α : Type} (gen : String → α) : CertCache α → List CacheOp → CertCache α
  | c, [] => c
  | c, CacheOp.get d :: rest => runOps gen (CertCache.getCert gen c d).2 rest
  | c, CacheOp.clear :: rest => runOps gen c.clearCache rest

/-- The keys of a cache state, oldest first. -/
def CertCache.keys {α : Type} (c : CertCache α) : List String :=
  c.entries.map Prod.fst

/-! ## Leaf certificate issuance (certs/profile.ts, `generateServerCert`)

The embedding works at the level of the node-forge certificate object
that `generateServerCert` constructs (subject/issuer attribute lists,
basic-constraints flag, subject-alternative-name list); PEM encoding,
key generation and the SHA-256 signature are outside the model.  The CA
input is its parsed subject attribute list. -/

/-- One subject-alternative-name entry as node-forge stores it: `typ` is
the GeneralName tag (2 = DNS, 7 = IP). -/
structure AltName where
  typ : Nat
  value : String
  deriving DecidableEq

/-- The relevant content of the built leaf certificate. -/
structure LeafCert where
  subject : List (String × String)
  issuer : List (String × String)
  basicConstraintsCA : Bool
  altNames : List AltName

/-- Helper for the dotted-quad test: `quadAux n` accepts a non-empty
digit run followed by `n` further groups of a dot and a non-empty digit
run, consuming the whole input. -/
def quadAux : Nat → List Char → Bool
  | 0, l =>
    !(l.takeWhile Char.isDigit).isEmpty && (l.dropWhile Char.isDigit).isEmpty
  | m + 1, l =>
    match l.dropWhile Char.isDigit with
    | '.' :: rest => !(l.takeWhile Char.isDigit).isEmpty && quadAux m rest
    | _ => false

/-- The test `/^\d+\.\d+\.\d+\.\d+$/.test(domain)`: exactly four
non-empty, all-digit runs separated by dots (since the digit and dot
character classes are disjoint, the regex matches without
backtracking and greedy digit runs are exact). -/
def isDottedQuad (s : String) : Bool :=
  quadAux 3 s.data

/-- JS `[...new Set(l)]`: deduplicate keeping first occurrences in
order. -/
def dedupFirst (l : List String) : List String :=
  (l.foldl (fun acc d => if d ∈ acc then acc else acc ++ [d]) [])

/-- The fixed subject attributes of every leaf certificate. -/
def serverSubjectAttrs : List (String × String) :=
  [("commonName", "MockMate Server"), ("organizationName", "MockMate"), ("countryName", "US")]

/-- certs/profile.ts `generateServerCert`: subject fixed, issuer set to
the CA's subject, basic constraints CA false, SANs built from the
deduplicated union of localhost, 127.0.0.1 and the requested domains,
each classified by the dotted-quad test. -/
def generateServerCert (caSubject : List (String × String)) (domains : List String) :
    LeafCert :=
  let allDomains := dedupFirst (["localhost", "127.0.0.1"] ++ domains)
  { subject := serverSubjectAttrs
  , issuer := caSubject
  , basicConstraintsCA := false
  , altNames := allDomains.map fun d =>
      if isDottedQuad d then { typ := 7, value := d } else { typ := 2, value := d } }

/-! ## MITM request framing (proxy-server.ts, `handleConnect` data loop)

One step of the buffered framing: the accumulated tunnel bytes are
inspected; a request is cut off exactly when a header terminator is
present and the declared body is complete.  Bytes are `List Char`
(HTTP/1.1 text). -/

/-- The header terminator CR LF CR LF. -/
def term4 : List Char := ['\r', '\n', '\r', '\n']

/-- `buffer.indexOf('\r\n\r\n')`: index of the first occurrence of the
terminator, if any. -/
def findTerm : List Char → Option Nat
  | [] => none
  | c :: cs =>
    if term4.isPrefixOf (c :: cs) then some 0
    else (findTerm cs).map (· + 1)

/-- JS `\s` on the ASCII range. -/
def jsSpace (c : Char) : Bool :=
  c = ' ' || c = '\t' || c = '\n' || c = '\r' || c = '\x0b' || c = '\x0c'

/-- The literal searched by `/content-length:\s*(\d+)/i`, lowercased. -/
def clKey : List Char := "content-length:".data

/-- Decimal value of a digit run (the `parseInt` of a `(\d+)` capture). -/
def natOfDigits (l : List Char) : Nat :=
  l.foldl (fun acc c => acc * 10 + (c.toNat - '0'.toNat)) 0

/-- Try to read `content-length:\s*(\d+)` starting exactly here. -/
def clFromHere (l : List Char) : Option Nat :=
  if clKey.isPrefixOf ((l.take clKey.length).map Char.toLower) then
    let digitsRun := ((l.drop clKey.length).dropWhile jsSpace).takeWhile Char.isDigit
    if digitsRun.isEmpty then none else some (natOfDigits digitsRun)
  else none

/-- First match of `/content-length:\s*(\d+)/i` in the header bytes. -/
def findCL : List Char → Option Nat
  | [] => none
  | c :: cs =>
    match clFromHere (c :: cs) with
    | some n => some n
    | none => findCL cs

/-- The body length the framing loop expects: the first
`content-length` match, 0 when absent. -/
def parseContentLength (headerBytes : List Char) : Nat :=
  (findCL headerBytes).getD 0

/-- One iteration of the `handleConnect` data handler over the
accumulated buffer: `(dispatched request bytes?, retained buffer)`.  No
terminator, or fewer bytes than `headerEnd + 4 + contentLength`, leaves
the buffer untouched with nothing dispatched; otherwise exactly the
complete request is cut off and the remainder is retained. -/
def processBuffer (b : List Char) : Option (List Char) × List Char :=
  match findTerm b with
  | none => (none, b)
  | some headerEnd =>
    let contentLength := parseContentLength (b.take headerEnd)
    let totalExpected := headerEnd + 4 + contentLength
    if b.length < totalExpected then (none, b)
    else (some (b.take totalExpected), b.drop totalExpected)

/-! ## Upstream forwarder (proxy-handler.ts `forwardRequest` and
services/proxy.ts `proxyRequest`)

Each forwarder first constructs the target URL — `new URL(req.path,
baseUrl)` in proxy-handler.ts and `new URL(req.originalUrl, baseUrl)` in
services/proxy.ts — *outside* its try/catch, so a failing constructor
throws out of the forwarder; only then does the try block run the
`fetch` call, whose outcome (a response, an `AbortError` fired by the
30-second timer, or any other failure) is mapped to a response value.
The network call itself is abstracted as its outcome; the URL
constructor is modelled by its success condition `newURLOk`. -/

/-- Outcome of the `fetch` call inside the forwarder's try block. -/
inductive FetchOutcome where
  | success (status : Nat) (respHeaderList : List (String × String)) (bodyBytes : String)
  | abortError
  | networkError (msg : String)

/-- Which JS expression produced the response body bytes: the upstream
bytes unchanged, or `JSON.stringify` of a synthesized object. -/
inductive BodyBytes where
  | upstream (bytes : String)
  | stringified (j : Json)

/-- proxy-handler.ts `ProxyOutgoingResponse`. -/
structure ForwardResult where
  statusCode : Nat
  respHeaderList : List (String × String)
  body : BodyBytes
  proxied : Bool

/-- The fixed request timeout (30 seconds), `PROXY_TIMEOUT_MS` in both
forwarder modules. -/
def PROXY_TIMEOUT_MS : Nat := 30000

/-- Hop-specific response headers stripped by both forwarders. -/
def excludedResponseHeaderNames : List String :=
  ["transfer-encoding", "content-encoding", "connection", "keep-alive"]

/-- The try/catch body of proxy-handler.ts `forwardRequest`: success
maps status/filtered headers/body through; an abort synthesizes a 504
with a JSON error object; any other failure synthesizes a 502 with a
JSON error object.  Every branch of this mapping returns a response
value — nothing escapes the catch. -/
def forwardFetchMapping (outcome : FetchOutcome) : ForwardResult :=
  match outcome with
  | FetchOutcome.success status hs bodyBytes =>
    { statusCode := status
    , respHeaderList := hs.filter fun p => ¬ p.1.toLower ∈ excludedResponseHeaderNames
    , body := BodyBytes.upstream bodyBytes
    , proxied := true }
  | FetchOutcome.abortError =>
    { statusCode := 504
    , respHeaderList := [("content-type", "application/json")]
    , body := BodyBytes.stringified (Json.obj
        [ ("error", Json.str "Gateway Timeout")
        , ("message", Json.str ("Upstream server did not respond within "
            ++ toString (PROXY_TIMEOUT_MS / 1000) ++ "s")) ])
    , proxied := true }
  | FetchOutcome.networkError msg =>
    { statusCode := 502
    , respHeaderList := [("content-type", "application/json")]
    , body := BodyBytes.stringified (Json.obj
        [ ("error", Json.str "Bad Gateway")
        , ("message", Json.str ("Failed to reach upstream server: " ++ msg)) ])
    , proxied := true }

/-- services/proxy.ts `ProxyResult` (the direct-connect forwarder's
return shape). -/
structure ProxyResult where
  statusCode : Nat
  respHeaderList : List (String × String)
  body : BodyBytes
  contentType : String

/-- The try/catch body of services/proxy.ts `proxyRequest`, the same
error mapping with its own message texts and an explicit content
type. -/
def proxyFetchMapping (outcome : FetchOutcome) : ProxyResult :=
  match outcome with
  | FetchOutcome.success status hs bodyBytes =>
    { statusCode := status
    , respHeaderList := hs.filter fun p => ¬ p.1.toLower ∈ excludedResponseHeaderNames
    , body := BodyBytes.upstream bodyBytes
    , contentType := ((hs.find? fun p => p.1.toLower = "content-type").map Prod.snd).getD
        "application/octet-stream" }
  | FetchOutcome.abortError =>
    { statusCode := 504
    , respHeaderList := [("content-type", "application/json")]
    , body := BodyBytes.stringified (Json.obj
        [ ("error", Json.str "Gateway Timeout")
        , ("message", Json.str ("Upstream server did not respond within "
            ++ toString (PROXY_TIMEOUT_MS / 1000) ++ " seconds")) ])
    , contentType := "application/json" }
  | FetchOutcome.networkError msg =>
    { statusCode := 502
    , respHeaderList := [("content-type", "application/json")]
    , body := BodyBytes.stringified (Json.obj
        [ ("error", Json.str "Bad Gateway")
        , ("message", Json.str ("Failed to reach upstream server: " ++ msg)) ])
    , contentType := "application/json" }

/-- A synthesized JSON body carrying an `error` field. -/
def hasErrorField (b : BodyBytes) : Prop :=
  ∃ fields, b = BodyBytes.stringified (Json.obj fields) ∧ "error" ∈ fields.map Prod.fst

/-- An input that is an absolute http(s) URL (so the base is not used to
resolve it). -/
def isHttpAbsolute (u : String) : Bool :=
  "http://".data.isPrefixOf u.data || "https://".data.isPrefixOf u.data

/-- Success condition of `new URL(input, base)` for the URLs this
program produces.  The WHATWG constructor parses the base first and
throws on an invalid base (no scheme separator or empty host — the
`urlHostname` parse), whatever the input; with a valid http(s) base, an
input that is itself an absolute http(s) URL must also carry a valid
host, while any other input (request paths) resolves against the base
and succeeds. -/
def newURLOk (input base : String) : Bool :=
  (urlHostname base).isSome && (!isHttpAbsolute input || (urlHostname input).isSome)

/-- proxy-handler.ts `forwardRequest` in full: the target URL
`new URL(req.path, baseUrl)` is built before the try block, so a failing
constructor makes the forwarder throw — modelled as `none`, no response
value; otherwise the try/catch mapping over the fetch outcome runs. -/
def forwardRequest (baseUrl path : String) (outcome : FetchOutcome) :
    Option ForwardResult :=
  if newURLOk path baseUrl then some (forwardFetchMapping outcome) else none

/-- services/proxy.ts `proxyRequest` in full: the target URL
`new URL(req.originalUrl, baseUrl)` is built before the try block, so a
failing constructor makes the forwarder throw — modelled as `none`;
otherwise the try/catch mapping over the fetch outcome runs. -/
def proxyRequest (baseUrl originalUrl : String) (outcome : FetchOutcome) :
    Option ProxyResult :=
  if newURLOk originalUrl baseUrl then some (proxyFetchMapping outcome) else none

/-! ## Helper lemmas on scenario lookup -/

theorem find?_scenario_of_exists {l : List Scenario} {n : String}
    (h : ∃ s ∈ l, s.name = n) :
    ∃ a, l.find? (fun s => s.name = n) = some a ∧ a ∈ l ∧ a.name = n := by
  have hs : (l.find? (fun s => s.name = n)).isSome := by
    rw [List.find?_isSome]
    obtain ⟨s, hmem, hname⟩ := h
    exact ⟨s, hmem, by simp [hname]⟩
  obtain ⟨a, ha⟩ := Option.isSome_iff_exists.mp hs
  refine ⟨a, ha, List.mem_of_find?_eq_some ha, ?_⟩
  have := List.find?_some ha
  simpa using this

theorem find?_scenario_eq_none {l : List Scenario} {n : String}
    (h : ∀ s ∈ l, s.name ≠ n) :
    l.find? (fun s => s.name = n) = none := by
  rw [List.find?_eq_none]
  intro s hs
  simp [h s hs]

/-! ## Claim C1: scenario resolution priority -/

/-- Fixture for C1: a resource carrying a `default` scenario and a
`live` scenario. -/
def c1Resource : Resource :=
  { method := HttpMethod.GET
  , path := "/orders"
  , scenarios :=
      [ { name := "default", statusCode := 200, body := Json.obj [] }
      , { name := "live", statusCode := 503, body := Json.obj [] } ] }

/-- C1 counterexample: with active scenario `live` (present on the
resource) and an override naming a scenario absent on the resource, the
code resolves to the `default` scenario — it does not fall through to
the active scenario as the claim requires. -/
theorem scenarioPriority_counterexample :
    ((handleRequest HttpMethod.GET "/orders" [c1Resource] "live" (some "missing")).map
        (fun rc => (rc.scenario, rc.statusCode))) = some ("default", 200)
    ∧ (c1Resource.scenarios.find? (fun s => s.name = "missing")).isSome = false
    ∧ (c1Resource.scenarios.find? (fun s => s.name = "live")).map Scenario.name = some "live"
    ∧ ("default", (200 : Nat)) ≠ ("live", 503) := by
  refine ⟨by decide, by decide, by decide, by decide⟩

/-- C1 as amended: the name tried is the override when one is supplied,
otherwise the active scenario name; when that single name is absent (or
empty), resolution falls directly to the `default`-named scenario, then
the first declared scenario — the active scenario is never consulted
once an override is supplied.  A resource with no scenarios resolves to
the built-in fallback with status 200, empty object body, empty headers
and zero delay. -/
theorem scenarioResolution_amended :
    (∀ (r : Resource) (n : String), n ≠ "" →
      (∃ s ∈ r.scenarios, s.name = n) →
      resolveScenario r (some n) ∈ r.scenarios ∧ (resolveScenario r (some n)).name = n)
    ∧ (∀ (r : Resource) (n : String), n ≠ "" →
      (∀ s ∈ r.scenarios, s.name ≠ n) →
      resolveScenario r (some n) = defaultThenFirst r)
    ∧ (∀ (r : Resource),
      (∃ d ∈ r.scenarios, d.name = "default") →
      defaultThenFirst r ∈ r.scenarios ∧ (defaultThenFirst r).name = "default")
    ∧ (∀ (r : Resource),
      (∀ s ∈ r.scenarios, s.name ≠ "default") →
      r.scenarios.head? = none ∨ r.scenarios.head? = some (defaultThenFirst r))
    ∧ (∀ (r : Resource), r.scenarios = [] →
      ∀ n, resolveScenario r n = fallbackScenario)
    ∧ (fallbackScenario.statusCode = 200 ∧ fallbackScenario.body = Json.obj []
      ∧ fallbackScenario.headersField = some [] ∧ fallbackScenario.delay = some 0)
    ∧ (∀ m p res act ov r prm, matchRequest m p res = some (r, prm) →
      handleRequest m p res act (some ov) = some (buildResponse (resolveScenario r (some ov)))
      ∧ handleRequest m p res act none = some (buildResponse (resolveScenario r (some act)))) := by
  refine ⟨?_, ?_, ?_, ?_, ?_, ⟨rfl, rfl, rfl, rfl⟩, ?_⟩
  · intro r n hn hex
    obtain ⟨a, hfind, hmem, hname⟩ := find?_scenario_of_exists hex
    simp only [resolveScenario, jsFalsyName]
    rw [if_neg (by simp [hn]), hfind]
    exact ⟨hmem, hname⟩
  · intro r n hn hnone
    simp only [resolveScenario, jsFalsyName]
    rw [if_neg (by simpa using hn), find?_scenario_eq_none hnone]
  · intro r hex
    obtain ⟨a, hfind, hmem, hname⟩ := find?_scenario_of_exists hex
    simp only [defaultThenFirst]
    rw [hfind]
    exact ⟨hmem, hname⟩
  · intro r hnone
    cases h : r.scenarios.head? with
    | none => exact Or.inl rfl
    | some s =>
      exact Or.inr (by simp [defaultThenFirst, find?_scenario_eq_none hnone, h])
  · intro r hnil n
    cases n with
    | none => simp [resolveScenario, jsFalsyName, defaultThenFirst, hnil]
    | some n =>
      by_cases hn : n = ""
      · simp [resolveScenario, jsFalsyName, hn, defaultThenFirst, hnil]
      · simp [resolveScenario, jsFalsyName, hn, defaultThenFirst, hnil]
  · intro m p res act ov r prm hmatch
    constructor
    · simp [handleRequest, hmatch]
    · simp [handleRequest, hmatch]

/-- Witness for the amended C1: on the fixture resource, the override
`missing` (absent) resolves through the `default` chain, and a present
override resolves to its named scenario. -/
theorem scenarioResolution_amended_witness :
    resolveScenario c1Resource (some "missing") = defaultThenFirst c1Resource
    ∧ (resolveScenario c1Resource (some "live")).name = "live"
    ∧ resolveScenario c1Resource (some "live") ∈ c1Resource.scenarios := by
  refine ⟨scenarioResolution_amended.2.1 c1Resource "missing" (by decide) (by decide), ?_, ?_⟩
  · exact (scenarioResolution_amended.1 c1Resource "live" (by decide)
      ⟨{ name := "live", statusCode := 503, body := Json.obj [] }, by simp [c1Resource], rfl⟩).2
  · exact (scenarioResolution_amended.1 c1Resource "live" (by decide)
      ⟨{ name := "live", statusCode := 503, body := Json.obj [] }, by simp [c1Resource], rfl⟩).1

/-! ## Claim C10: empty-string scenario override -/

/-- Fixture for C10: a resource whose only scenario is the active one
and is not named `default`. -/
def c10Resource : Resource :=
  { method := HttpMethod.GET
  , path := "/a"
  , scenarios := [ { name := "live", statusCode := 500, body := Json.obj [] } ] }

/-- C10 counterexample: the active scenario `live` exists on the
resource and is not named `default`, yet an empty-string override and an
absent override produce identical responses (the resource has no
`default` scenario, so the empty override falls to the first scenario,
which is exactly the active one). -/
theorem emptyOverride_counterexample :
    handleRequest HttpMethod.GET "/a" [c10Resource] "live" (some "")
      = handleRequest HttpMethod.GET "/a" [c10Resource] "live" none
    ∧ (c10Resource.scenarios.find? (fun s => s.name = "live")).isSome = true
    ∧ "live" ≠ "default" := by
  exact ⟨rfl, by decide, by decide⟩

/-- C10 as amended: an empty-string override is resolved as if no name
were requested (the `default` scenario, else the first scenario, else
the built-in fallback), bypassing the active scenario; it behaves
differently from an absent override whenever, additionally, the resource
has a `default`-named scenario and the active scenario name is neither
empty nor `default`. -/
theorem emptyOverride_amended :
    (∀ r : Resource, resolveScenario r (some "") = defaultThenFirst r)
    ∧ (∀ r : Resource, resolveScenario r none = defaultThenFirst r)
    ∧ (∀ m p res act r prm, matchRequest m p res = some (r, prm) →
      handleRequest m p res act (some "") = some (buildResponse (defaultThenFirst r)))
    ∧ (∀ m p res (act : String) r prm, matchRequest m p res = some (r, prm) →
      act ≠ "" → act ≠ "default" →
      (∃ d ∈ r.scenarios, d.name = "default") →
      (∃ s ∈ r.scenarios, s.name = act) →
      (handleRequest m p res act (some "")).map ResponseConfig.scenario = some "default"
      ∧ (handleRequest m p res act none).map ResponseConfig.scenario = some act) := by
  have hempty : ∀ r : Resource, resolveScenario r (some "") = defaultThenFirst r := by
    intro r; simp [resolveScenario, jsFalsyName]
  have hnone : ∀ r : Resource, resolveScenario r none = defaultThenFirst r := by
    intro r; simp [resolveScenario, jsFalsyName]
  refine ⟨hempty, hnone, ?_, ?_⟩
  · intro m p res act r prm hmatch
    simp [handleRequest, hmatch, hempty]
  · intro m p res act r prm hmatch hact hactd hdef hactex
    constructor
    · obtain ⟨a, hfind, _, hname⟩ := find?_scenario_of_exists hdef
      simp [handleRequest, hmatch, hempty, defaultThenFirst, hfind, buildResponse, hname]
    · obtain ⟨a, hfind, _, hname⟩ := find?_scenario_of_exists hactex
      have hres : resolveScenario r (some act) = a := by
        simp only [resolveScenario, jsFalsyName]
        rw [if_neg (by simpa using hact), hfind]
      simp [handleRequest, hmatch, hres, buildResponse, hname]

/-- Witness for the amended C10: with a `default` scenario present and
active scenario `live`, the empty override yields `default` while the
absent override yields `live`. -/
theorem emptyOverride_amended_witness :
    (handleRequest HttpMethod.GET "/orders" [c1Resource] "live" (some "")).map
        ResponseConfig.scenario = some "default"
    ∧ (handleRequest HttpMethod.GET "/orders" [c1Resource] "live" none).map
        ResponseConfig.scenario = some "live" :=
  emptyOverride_amended.2.2.2 HttpMethod.GET "/orders" [c1Resource] "live" c1Resource
    (extractParams "/orders" "/orders") rfl (by decide) (by decide)
    ⟨{ name := "default", statusCode := 200, body := Json.obj [] }, by simp [c1Resource], rfl⟩
    ⟨{ name := "live", statusCode := 503, body := Json.obj [] }, by simp [c1Resource], rfl⟩

/-! ## Claim C2: resource-level passthrough forwarding -/

/-- Fixture for C2: a resource explicitly marked passthrough, with its
default scenario. -/
def c2Scenario : Scenario := { name := "default", statusCode := 200, body := Json.obj [] }

/-- Fixture for C2: the passthrough-marked resource. -/
def c2Resource : Resource :=
  { method := HttpMethod.GET
  , path := "/api/users"
  , scenarios := [c2Scenario]
  , passthrough := some true }

/-- Fixture for C2: project with a base URL and global passthrough ON. -/
def c2ProjectOn : Project :=
  { activeScenario := "default"
  , baseUrl := some "https://api.example.com"
  , passthroughEnabled := some true }

/-- Fixture for C2: project with a base URL and global passthrough OFF. -/
def c2ProjectOff : Project :=
  { activeScenario := "default"
  , baseUrl := some "https://api.example.com"
  , passthroughEnabled := some false }

/-- C2 (code bug evaluated): `buildResponse` never sets a `passthrough`
property on the response config, so the forwarding branch guarded by
`responseConfig.passthrough` in both handlers is unreachable — a request
matching a resource marked passthrough, with a base URL configured,
still receives the mock response on the direct handler (even with the
global flag on) and on the proxy path. -/
theorem passthroughResource_still_mocked :
    (∀ s : Scenario, (buildResponse s).passthrough = none)
    ∧ mockRequestHandler (some c2ProjectOn) [c2Resource] HttpMethod.GET "/api/users" none
        = MockOutcome.mock (buildResponse c2Scenario)
    ∧ mockRequestHandler (some c2ProjectOff) [c2Resource] HttpMethod.GET "/api/users" none
        = MockOutcome.mock (buildResponse c2Scenario)
    ∧ resolveProxyRequest (some c2ProjectOff) [c2Resource] HttpMethod.GET "/api/users" none
        "api.example.com" = ProxyOutcome.mock (buildResponse c2Scenario)
    ∧ c2Resource.passthrough = some true := by
  exact ⟨fun s => rfl, rfl, rfl, rfl, rfl⟩

/-! ## Claim C3: no-match passthrough decision -/

/-- Fixture for C3: project with a base URL but passthrough disabled. -/
def c3Project : Project :=
  { activeScenario := "default"
  , baseUrl := some "https://api.example.com"
  , passthroughEnabled := some false }

/-- C3 counterexample: with passthrough disabled, an unmatched request
is 404 on the direct handler but is nevertheless forwarded on the proxy
path — the two paths do not make the same decision, and the proxy
forwards without the passthrough flag. -/
theorem noMatchDecision_counterexample :
    mockRequestHandler (some c3Project) [] HttpMethod.GET "/x" none = MockOutcome.notFound
    ∧ resolveProxyRequest (some c3Project) [] HttpMethod.GET "/x" none "api.example.com"
        = ProxyOutcome.forwarded
    ∧ canProxy c3Project = false := by
  exact ⟨rfl, rfl, rfl⟩

/-- C3 as amended: on the direct-connect handler an unmatched request is
forwarded exactly when the project has passthrough enabled and a
non-empty base URL, else it is not-found; on the proxy path, once the
request reached resolution (the base URL parses and its hostname equals
the tunnelled host), an unmatched request is always forwarded,
regardless of the passthrough flag. -/
theorem noMatchDecision_amended :
    (∀ p : Project, canProxy p = true ↔
      p.passthroughEnabled = some true ∧ ∃ b, p.baseUrl = some b ∧ b ≠ "")
    ∧ (∀ (p : Project) (resources : List Resource) (m : HttpMethod) (path : String)
        (ov : Option String),
      handleRequest m path resources p.activeScenario ov = none →
      mockRequestHandler (some p) resources m path ov
        = (if canProxy p then MockOutcome.proxied else MockOutcome.notFound))
    ∧ (∀ (p : Project) (resources : List Resource) (m : HttpMethod) (path : String)
        (ov : Option String) (host b : String),
      p.baseUrl = some b → b ≠ "" → urlHostname b = some host →
      handleRequest m path resources p.activeScenario ov = none →
      resolveProxyRequest (some p) resources m path ov host = ProxyOutcome.forwarded) := by
  refine ⟨?_, ?_, ?_⟩
  · intro p
    constructor
    · intro h
      simp only [canProxy, Bool.and_eq_true] at h
      obtain ⟨h1, h2⟩ := h
      refine ⟨?_, ?_⟩
      · cases hpe : p.passthroughEnabled with
        | none => rw [hpe] at h1; simp at h1
        | some v => rw [hpe] at h1; simp at h1; rw [h1]
      · cases hb : p.baseUrl with
        | none => rw [hb] at h2; simp [jsTruthyOptStr] at h2
        | some b =>
          rw [hb] at h2
          exact ⟨b, rfl, by simpa [jsTruthyOptStr] using h2⟩
    · rintro ⟨h1, b, hb, hbne⟩
      simp [canProxy, h1, hb, jsTruthyOptStr, hbne]
  · intro p resources m path ov hnm
    simp [mockRequestHandler, hnm]
  · intro p resources m path ov host b hb hbne hhost hnm
    simp [resolveProxyRequest, hb, jsTruthyOptStr, hbne, hhost, hnm]

/-- Witness for the amended C3 at the fixture project. -/
theorem noMatchDecision_amended_witness :
    mockRequestHandler (some c3Project) [] HttpMethod.GET "/y" none = MockOutcome.notFound
    ∧ resolveProxyRequest (some c3Project) [] HttpMethod.GET "/y" none "api.example.com"
        = ProxyOutcome.forwarded := by
  constructor
  · have h := noMatchDecision_amended.2.1 c3Project [] HttpMethod.GET "/y" none rfl
    exact h.trans rfl
  · exact noMatchDecision_amended.2.2 c3Project [] HttpMethod.GET "/y" none "api.example.com"
      "https://api.example.com" rfl (by decide) rfl rfl

/-! ## Claim C4: LRU eviction order on concrete sequences -/

/-- C4: with capacity 2, the sequence A, B, C evicts A; a hit promotes
to most-recently-used, so A, B, A leaves A last; and A, B, A, C evicts B
and keeps A. -/
theorem certCache_lru_sequences :
    (runOps (fun _ => ()) (CertCache.init Unit 2)
        [CacheOp.get "A", CacheOp.get "B", CacheOp.get "C"]).keys = ["B", "C"]
    ∧ (runOps (fun _ => ()) (CertCache.init Unit 2)
        [CacheOp.get "A", CacheOp.get "B", CacheOp.get "A"]).keys = ["B", "A"]
    ∧ (runOps (fun _ => ()) (CertCache.init Unit 2)
        [CacheOp.get "A", CacheOp.get "B", CacheOp.get "A", CacheOp.get "C"]).keys
        = ["A", "C"] := by
  exact ⟨rfl, rfl, rfl⟩

/-! ## Claim C7: leaf certificate contents -/

theorem mem_dedup_foldl (l acc : List String) (x : String) :
    (x ∈ l.foldl (fun acc d => if d ∈ acc then acc else acc ++ [d]) acc) ↔
      x ∈ acc ∨ x ∈ l := by
  induction l generalizing acc with
  | nil => simp
  | cons d ds ih =>
    simp only [List.foldl_cons]
    by_cases hd : d ∈ acc
    · rw [if_pos hd, ih]
      constructor
      · rintro (h | h)
        · exact Or.inl h
        · exact Or.inr (List.mem_cons_of_mem _ h)
      · rintro (h | h)
        · exact Or.inl h
        · rcases List.mem_cons.mp h with h | h
          · exact Or.inl (h ▸ hd)
          · exact Or.inr h
    · rw [if_neg hd, ih]
      simp only [List.mem_append, List.mem_cons, List.mem_singleton]
      tauto

theorem mem_dedupFirst {l : List String} {x : String} : x ∈ dedupFirst l ↔ x ∈ l := by
  simpa [dedupFirst] using mem_dedup_foldl l [] x

/-- C7: every issued leaf certificate has issuer equal to the CA's
subject, basic constraints CA false, contains `localhost` as a DNS SAN
and `127.0.0.1` as an IP SAN whatever the requested domains are, and
contains every requested domain, typed 7 (IP) when it passes the
dotted-quad test and 2 (DNS) otherwise. -/
theorem leafCert_properties (caSubject : List (String × String)) (domains : List String) :
    (generateServerCert caSubject domains).issuer = caSubject
    ∧ (generateServerCert caSubject domains).basicConstraintsCA = false
    ∧ AltName.mk 2 "localhost" ∈ (generateServerCert caSubject domains).altNames
    ∧ AltName.mk 7 "127.0.0.1" ∈ (generateServerCert caSubject domains).altNames
    ∧ ∀ d ∈ domains,
        (isDottedQuad d = true → AltName.mk 7 d ∈ (generateServerCert caSubject domains).altNames)
        ∧ (isDottedQuad d = false →
            AltName.mk 2 d ∈ (generateServerCert caSubject domains).altNames) := by
  refine ⟨rfl, rfl, ?_, ?_, ?_⟩
  · refine List.mem_map.mpr ⟨"localhost", ?_, by decide⟩
    exact mem_dedupFirst.mpr (by simp)
  · refine List.mem_map.mpr ⟨"127.0.0.1", ?_, by decide⟩
    exact mem_dedupFirst.mpr (by simp)
  · intro d hd
    have hmem : d ∈ dedupFirst (["localhost", "127.0.0.1"] ++ domains) :=
      mem_dedupFirst.mpr (by simp [hd])
    constructor
    · intro hip
      exact List.mem_map.mpr ⟨d, hmem, by simp [hip]⟩
    · intro hdns
      exact List.mem_map.mpr ⟨d, hmem, by simp [hdns]⟩

/-- Witness for C7 at a concrete CA subject and domain list containing
one DNS name and one dotted-quad. -/
theorem leafCert_properties_witness :
    AltName.mk 2 "api.example.com" ∈
      (generateServerCert [("commonName", "MockMate CA")]
        ["api.example.com", "10.0.0.5"]).altNames
    ∧ AltName.mk 7 "10.0.0.5" ∈
      (generateServerCert [("commonName", "MockMate CA")]
        ["api.example.com", "10.0.0.5"]).altNames := by
  constructor
  · exact ((leafCert_properties [("commonName", "MockMate CA")]
      ["api.example.com", "10.0.0.5"]).2.2.2.2 "api.example.com" (by simp)).2 (by decide)
  · exact ((leafCert_properties [("commonName", "MockMate CA")]
      ["api.example.com", "10.0.0.5"]).2.2.2.2 "10.0.0.5" (by simp)).1 (by decide)

/-! ## Claim C9: forwarder error mapping -/

/-- Fixture for C9: a project whose base URL has no scheme.  createProject
and updateProject only trim the base URL, so this state is reachable, and
it passes the truthiness-only `canProxy` check. -/
def c9SchemelessProject : Project :=
  { activeScenario := "default"
  , baseUrl := some "example.com"
  , passthroughEnabled := some true }

/-- C9 counterexample: with the reachable scheme-less base URL
`example.com` (which passes `canProxy`), both forwarders throw in the
`new URL` call that precedes their try/catch — no response value is
returned, even for the timeout outcome the claim maps to a 504.  The
same happens for a valid base when the request path is a malformed
absolute URL (`http://`), which `parseHttpRequest` keeps as-is. -/
theorem forwarder_throw_counterexample :
    canProxy c9SchemelessProject = true
    ∧ forwardRequest "example.com" "/unknown" FetchOutcome.abortError = none
    ∧ proxyRequest "example.com" "/unknown" FetchOutcome.abortError = none
    ∧ forwardRequest "https://api.example.com" "http://" FetchOutcome.abortError = none := by
  exact ⟨rfl, rfl, rfl, rfl⟩

/-- C9 as amended: the timeout constant is 30 seconds, and for every
forwarding call whose target-URL construction succeeds the forwarder
returns a well-formed response value for every fetch outcome — a timeout
maps to a synthesized 504 and any other network failure to a 502, each
with a JSON body carrying an `error` field, and the proxy-handler result
is always flagged `proxied` — but when `new URL(path, baseUrl)` fails
(an invalid base URL, or a malformed absolute-URL path), the exception
is thrown before the try/catch and propagates out of the forwarder, and
no response is returned.  This holds for both the proxy-side forwarder
and the direct-connect forwarder. -/
theorem forwarder_error_mapping_amended :
    PROXY_TIMEOUT_MS = 30000
    ∧ (∀ base path outcome, newURLOk path base = true →
        forwardRequest base path outcome = some (forwardFetchMapping outcome)
        ∧ (forwardFetchMapping outcome).proxied = true)
    ∧ (∀ base path, newURLOk path base = true →
        (forwardRequest base path FetchOutcome.abortError).map ForwardResult.statusCode
          = some 504
        ∧ hasErrorField (forwardFetchMapping FetchOutcome.abortError).body)
    ∧ (∀ base path msg, newURLOk path base = true →
        (forwardRequest base path (FetchOutcome.networkError msg)).map
            ForwardResult.statusCode = some 502
        ∧ hasErrorField (forwardFetchMapping (FetchOutcome.networkError msg)).body)
    ∧ (∀ base path outcome, newURLOk path base = false →
        forwardRequest base path outcome = none)
    ∧ (∀ base url outcome, newURLOk url base = true →
        proxyRequest base url outcome = some (proxyFetchMapping outcome))
    ∧ (∀ base url, newURLOk url base = true →
        (proxyRequest base url FetchOutcome.abortError).map ProxyResult.statusCode
          = some 504
        ∧ hasErrorField (proxyFetchMapping FetchOutcome.abortError).body)
    ∧ (∀ base url msg, newURLOk url base = true →
        (proxyRequest base url (FetchOutcome.networkError msg)).map
            ProxyResult.statusCode = some 502
        ∧ hasErrorField (proxyFetchMapping (FetchOutcome.networkError msg)).body)
    ∧ (∀ base url outcome, newURLOk url base = false →
        proxyRequest base url outcome = none) := by
  refine ⟨rfl, ?_, ?_, ?_, ?_, ?_, ?_, ?_, ?_⟩
  · intro base path outcome h
    refine ⟨by simp [forwardRequest, h], ?_⟩
    cases outcome <;> rfl
  · intro base path h
    exact ⟨by simp [forwardRequest, h]; rfl, ⟨_, rfl, by simp⟩⟩
  · intro base path msg h
    exact ⟨by simp [forwardRequest, h]; rfl, ⟨_, rfl, by simp⟩⟩
  · intro base path outcome h
    simp [forwardRequest, h]
  · intro base url outcome h
    simp [proxyRequest, h]
  · intro base url h
    exact ⟨by simp [proxyRequest, h]; rfl, ⟨_, rfl, by simp⟩⟩
  · intro base url msg h
    exact ⟨by simp [proxyRequest, h]; rfl, ⟨_, rfl, by simp⟩⟩
  · intro base url outcome h
    simp [proxyRequest, h]

/-- Witness for the amended C9 at a well-formed base URL and request
path (URL construction succeeds) and at the scheme-less base (it does
not). -/
theorem forwarder_error_mapping_amended_witness :
    (forwardRequest "https://api.example.com" "/orders" FetchOutcome.abortError).map
        ForwardResult.statusCode = some 504
    ∧ (proxyRequest "https://api.example.com" "/orders"
        (FetchOutcome.networkError "refused")).map ProxyResult.statusCode = some 502
    ∧ forwardRequest "example.com" "/orders" FetchOutcome.abortError = none := by
  refine ⟨?_, ?_, ?_⟩
  · exact (forwarder_error_mapping_amended.2.2.1 "https://api.example.com" "/orders"
      (by decide)).1
  · exact (forwarder_error_mapping_amended.2.2.2.2.2.2.2.1 "https://api.example.com"
      "/orders" "refused" (by decide)).1
  · exact forwarder_error_mapping_amended.2.2.2.2.1 "example.com" "/orders"
      FetchOutcome.abortError (by decide)

/-! ## Claim C5: cache size bound and eviction candidate -/

/-- The invariant maintained by every reachable cache state (for a
positive capacity and non-empty hostnames): the stored capacity, the
size bound, distinct keys, and no empty-string key. -/
def CacheInv {α : Type} (maxSize : Nat) (c : CertCache α) : Prop :=
  c.maxSize = maxSize ∧ c.entries.length ≤ maxSize
  ∧ (c.entries.map Prod.fst).Nodup ∧ "" ∉ c.entries.map Prod.fst

theorem keys_eraseKey {α : Type} (d : String) (l : List (String × α)) :
    (eraseKey d l).map Prod.fst = (l.map Prod.fst).erase d := by
  induction l with
  | nil => simp [eraseKey]
  | cons e es ih =>
    simp only [eraseKey]
    by_cases h : e.1 = d
    · rw [if_pos h]
      simp [List.erase_cons, h]
    · rw [if_neg h]
      simp [List.erase_cons, h, ih]

theorem length_eraseKey_add_one {α : Type} {d : String} {l : List (String × α)}
    (h : d ∈ l.map Prod.fst) : (eraseKey d l).length + 1 = l.length := by
  have hk := congrArg List.length (keys_eraseKey d l)
  rw [List.length_map, List.length_erase_of_mem h, List.length_map] at hk
  have hpos : 0 < l.length := by
    cases l with
    | nil => simp at h
    | cons e es => simp
  omega

theorem not_mem_keys_of_find?_none {α : Type} {d : String} {l : List (String × α)}
    (h : l.find? (fun e => e.1 = d) = none) : d ∉ l.map Prod.fst := by
  intro hmem
  obtain ⟨e, hmeme, heq⟩ := List.mem_map.mp hmem
  have := List.find?_eq_none.mp h e hmeme
  simp [heq] at this

/-- `getCert` keeps the configured capacity. -/
theorem getCert_maxSize {α : Type} (gen : String → α) (c : CertCache α) (d : String) :
    (CertCache.getCert gen c d).2.maxSize = c.maxSize := by
  unfold CertCache.getCert
  cases hfind : c.entries.find? (fun e => e.1 = d) <;> simp [hfind]

/-- Entries after a hit: delete-then-append. -/
theorem getCert_hit_entries {α : Type} {gen : String → α} {c : CertCache α} {d : String}
    {e : String × α} (hfind : c.entries.find? (fun x => x.1 = d) = some e) :
    (CertCache.getCert gen c d).2.entries = eraseKey d c.entries ++ [(d, e.2)] := by
  simp [CertCache.getCert, hfind]

/-- Entries after a capacity miss whose oldest key is truthy: the head
entry is evicted and the new entry appended. -/
theorem getCert_miss_full_entries {α : Type} {gen : String → α} {c : CertCache α}
    {d k : String} {v : α} {es : List (String × α)}
    (hfind : c.entries.find? (fun x => x.1 = d) = none)
    (hent : c.entries = (k, v) :: es)
    (hfull : c.entries.length ≥ c.maxSize)
    (hk : k ≠ "") :
    (CertCache.getCert gen c d).2.entries = es ++ [(d, gen d)] := by
  have hfull' : ((k, v) :: es).length ≥ c.maxSize := hent ▸ hfull
  simp only [CertCache.getCert, hfind]
  rw [hent, if_pos hfull']
  simp [hk]

/-- Entries after a non-capacity miss: plain append. -/
theorem getCert_miss_notfull_entries {α : Type} {gen : String → α} {c : CertCache α}
    {d : String} (hfind : c.entries.find? (fun x => x.1 = d) = none)
    (hnotfull : ¬ c.entries.length ≥ c.maxSize) :
    (CertCache.getCert gen c d).2.entries = c.entries ++ [(d, gen d)] := by
  simp [CertCache.getCert, hfind, hnotfull]

theorem getCert_inv {α : Type} {gen : String → α} {maxSize : Nat} {c : CertCache α}
    {d : String} (hm : 1 ≤ maxSize) (hd : d ≠ "") (h : CacheInv maxSize c) :
    CacheInv maxSize (CertCache.getCert gen c d).2 := by
  obtain ⟨hms, hlen, hnd, hne⟩ := h
  refine ⟨(getCert_maxSize gen c d).trans hms, ?_⟩
  cases hfind : c.entries.find? (fun x => x.1 = d) with
  | some e =>
    have hdm : d ∈ c.entries.map Prod.fst := by
      have hmem := List.mem_of_find?_eq_some hfind
      have hp := List.find?_some hfind
      simp only [decide_eq_true_eq] at hp
      exact List.mem_map.mpr ⟨e, hmem, hp⟩
    have hlen1 := length_eraseKey_add_one (l := c.entries) hdm
    rw [getCert_hit_entries hfind]
    have hkeys : (eraseKey d c.entries).map Prod.fst = (c.entries.map Prod.fst).erase d :=
      keys_eraseKey d c.entries
    refine ⟨by simp only [List.length_append, List.length_cons, List.length_nil]; omega,
      ?_, ?_⟩
    · simp only [List.map_append, List.map_cons, List.map_nil]
      rw [hkeys, List.nodup_append]
      refine ⟨hnd.erase d, by simp, ?_⟩
      intro x hx hx'
      simp only [List.mem_cons, List.not_mem_nil, or_false] at hx'
      subst hx'
      rw [List.Nodup.mem_erase_iff hnd] at hx
      exact hx.1 rfl
    · simp only [List.map_append, List.map_cons, List.map_nil]
      rw [hkeys]
      intro hcontra
      rcases List.mem_append.mp hcontra with h1 | h1
      · exact hne (List.mem_of_mem_erase h1)
      · simp only [List.mem_cons, List.not_mem_nil, or_false] at h1
        exact hd h1.symm
  | none =>
    have hdnot : d ∉ c.entries.map Prod.fst := not_mem_keys_of_find?_none hfind
    by_cases hfull : c.entries.length ≥ c.maxSize
    · have hlenms : c.entries.length = maxSize := by omega
      have hnil : c.entries ≠ [] := by
        intro hcontra
        rw [hcontra] at hlenms
        simp at hlenms
        omega
      obtain ⟨e, es, hent⟩ := List.exists_cons_of_ne_nil hnil
      obtain ⟨k, v⟩ := e
      have hkkey : k ≠ "" := by
        intro hcontra
        apply hne
        rw [hent, ← hcontra]
        simp
      rw [getCert_miss_full_entries hfind hent hfull hkkey]
      have hndes : (es.map Prod.fst).Nodup := by
        rw [hent] at hnd
        exact (List.nodup_cons.mp (by simpa using hnd)).2
      have hdes : d ∉ es.map Prod.fst := by
        intro hmem
        apply hdnot
        rw [hent]
        simp [hmem]
      have hlenes : es.length + 1 = maxSize := by
        rw [hent] at hlenms
        simpa using hlenms
      refine ⟨by simp only [List.length_append, List.length_cons, List.length_nil]; omega,
        ?_, ?_⟩
      · simp only [List.map_append, List.map_cons, List.map_nil]
        rw [List.nodup_append]
        refine ⟨hndes, by simp, ?_⟩
        intro x hx hx'
        simp only [List.mem_cons, List.not_mem_nil, or_false] at hx'
        subst hx'
        exact hdes hx
      · simp only [List.map_append, List.map_cons, List.map_nil]
        intro hcontra
        rcases List.mem_append.mp hcontra with h1 | h1
        · apply hne
          rw [hent]
          simp [h1]
        · simp only [List.mem_cons, List.not_mem_nil, or_false] at h1
          exact hd h1.symm
    · rw [getCert_miss_notfull_entries hfind hfull]
      simp only [ge_iff_le, not_le] at hfull
      refine ⟨by simp only [List.length_append, List.length_cons, List.length_nil]; omega,
        ?_, ?_⟩
      · simp only [List.map_append, List.map_cons, List.map_nil]
        rw [List.nodup_append]
        refine ⟨hnd, by simp, ?_⟩
        intro x hx hx'
        simp only [List.mem_cons, List.not_mem_nil, or_false] at hx'
        subst hx'
        exact hdnot hx
      · simp only [List.map_append, List.map_cons, List.map_nil]
        intro hcontra
        rcases List.mem_append.mp hcontra with h1 | h1
        · exact hne h1
        · simp only [List.mem_cons, List.not_mem_nil, or_false] at h1
          exact hd h1.symm

theorem clearCache_inv {α : Type} {maxSize : Nat} {c : CertCache α}
    (h : CacheInv maxSize c) : CacheInv maxSize c.clearCache :=
  ⟨h.1, by simp [CertCache.clearCache], by simp [CertCache.clearCache],
    by simp [CertCache.clearCache]⟩

theorem cacheInv_init {α : Type} (maxSize : Nat) :
    CacheInv maxSize (CertCache.init α maxSize) :=
  ⟨rfl, by simp [CertCache.init], by simp [CertCache.init], by simp [CertCache.init]⟩

theorem runOps_inv {α : Type} {gen : String → α} {maxSize : Nat}
    (hm : 1 ≤ maxSize) :
    ∀ (ops : List CacheOp) (c : CertCache α), CacheInv maxSize c →
      (∀ x, CacheOp.get x ∈ ops → x ≠ "") →
      CacheInv maxSize (runOps gen c ops) := by
  intro ops
  induction ops with
  | nil => intro c hc _; exact hc
  | cons op rest ih =>
    intro c hc hops
    cases op with
    | get dd =>
      have hd : dd ≠ "" := hops dd (by simp)
      exact ih _ (getCert_inv hm hd hc) (fun x hx => hops x (List.mem_cons_of_mem _ hx))
    | clear =>
      exact ih _ (clearCache_inv hc) (fun x hx => hops x (List.mem_cons_of_mem _ hx))

theorem head?_ne_getLast?_of_nodup {l : List String} (hn : l.Nodup) (h2 : 2 ≤ l.length) :
    l.head? ≠ l.getLast? := by
  match l, hn, h2 with
  | a :: b :: rest, hn, _ =>
    intro he
    have hgl : (a :: b :: rest).getLast? = some ((b :: rest).getLast (by simp)) := by
      rw [List.getLast?_eq_getLast _ (by simp), List.getLast_cons (by simp)]
    rw [List.head?_cons, hgl, Option.some.injEq] at he
    have hmem : (b :: rest).getLast (by simp) ∈ b :: rest := List.getLast_mem _
    rw [← he] at hmem
    exact (List.nodup_cons.mp hn).1 hmem

/-- The eviction performed on a capacity miss over a state satisfying the
invariant: the head (least recently used) entry is dropped and the new
entry goes to the end. -/
theorem getCert_evicts {α : Type} {gen : String → α} {maxSize : Nat} {c : CertCache α}
    {d : String} (hinv : CacheInv maxSize c) (hm : 1 ≤ maxSize)
    (hmiss : c.entries.find? (fun e => e.1 = d) = none)
    (hfull : maxSize ≤ c.entries.length) :
    (CertCache.getCert gen c d).2.entries = c.entries.tail ++ [(d, gen d)] := by
  obtain ⟨hms, hlen, hnd, hne⟩ := hinv
  have hfull' : c.entries.length ≥ c.maxSize := by omega
  have hnil : c.entries ≠ [] := by
    intro hcontra
    rw [hcontra] at hlen hfull
    simp at hfull
    omega
  obtain ⟨e, es, hent⟩ := List.exists_cons_of_ne_nil hnil
  obtain ⟨k, v⟩ := e
  have hkkey : k ≠ "" := by
    intro hcontra
    apply hne
    rw [hent, ← hcontra]
    simp
  rw [getCert_miss_full_entries hmiss hent hfull' hkkey, hent]
  simp

/-- Fixture for the C5 counterexample: capacity 1 after requesting `A`. -/
def c5CounterState : CertCache Unit :=
  ((CertCache.init Unit 1).getCert (fun _ => ()) "A").2

/-- C5 counterexample: with capacity 1, requesting A and then B evicts
A on the capacity miss, although A — the sole entry — is the
most-recently-used entry at that moment. -/
theorem certCache_mru_eviction_counterexample :
    c5CounterState.keys = ["A"]
    ∧ (c5CounterState.entries.getLast?.map Prod.fst) = some "A"
    ∧ (c5CounterState.getCert (fun _ => ()) "B").2.keys = ["B"] := by
  exact ⟨rfl, rfl, rfl⟩

/-- C5 as amended: for a capacity of at least 1 and hostnames that are
never the empty string, every reachable cache state holds at most
`maxSize` entries; on a capacity miss the evicted entry is the least
recently used one (the head of the recency order), and when the cache
holds at least two entries that entry differs from the most recently
used one. -/
theorem certCache_bound_amended :
    (∀ (α : Type) (gen : String → α) (maxSize : Nat) (ops : List CacheOp),
      1 ≤ maxSize → (∀ x, CacheOp.get x ∈ ops → x ≠ "") →
      (runOps gen (CertCache.init α maxSize) ops).entries.length ≤ maxSize)
    ∧ (∀ (α : Type) (gen : String → α) (maxSize : Nat) (ops : List CacheOp)
        (d : String) (s : CertCache α),
      1 ≤ maxSize → (∀ x, CacheOp.get x ∈ ops → x ≠ "") → d ≠ "" →
      s = runOps gen (CertCache.init α maxSize) ops →
      s.entries.find? (fun e => e.1 = d) = none →
      maxSize ≤ s.entries.length →
      (s.getCert gen d).2.entries = s.entries.tail ++ [(d, gen d)]
      ∧ (2 ≤ s.entries.length → s.keys.head? ≠ s.keys.getLast?)) := by
  constructor
  · intro α gen maxSize ops hm hops
    exact (runOps_inv hm ops _ (cacheInv_init maxSize) hops).2.1
  · intro α gen maxSize ops d s hm hops hd hs hmiss hfull
    have hinv : CacheInv maxSize s := by
      rw [hs]
      exact runOps_inv hm ops _ (cacheInv_init maxSize) hops
    refine ⟨getCert_evicts hinv hm hmiss hfull, ?_⟩
    intro h2
    exact head?_ne_getLast?_of_nodup hinv.2.2.1 (by simpa [CertCache.keys] using h2)

/-- Fixture for the C5 witness: capacity 2 after requesting A then B. -/
def c5WitnessState : CertCache Unit :=
  runOps (fun _ => ()) (CertCache.init Unit 2) [CacheOp.get "A", CacheOp.get "B"]

/-- Witness for the amended C5: capacity 2, requests A then B, then a
miss on C evicts A (the head), and the head key A differs from the most
recently used key B. -/
theorem certCache_bound_amended_witness :
    c5WitnessState.entries.length ≤ 2
    ∧ (c5WitnessState.getCert (fun _ => ()) "C").2.entries
        = c5WitnessState.entries.tail ++ [("C", ())]
    ∧ c5WitnessState.keys.head? ≠ c5WitnessState.keys.getLast? := by
  have hops : ∀ x, CacheOp.get x ∈ [CacheOp.get "A", CacheOp.get "B"] → x ≠ "" := by
    intro x hx
    simp only [List.mem_cons, List.not_mem_nil, or_false] at hx
    rcases hx with h | h <;>
      · injection h with h'
        subst h'
        decide
  refine ⟨certCache_bound_amended.1 Unit (fun _ => ()) 2
    [CacheOp.get "A", CacheOp.get "B"] (by decide) hops, ?_, ?_⟩
  · exact (certCache_bound_amended.2 Unit (fun _ => ()) 2
      [CacheOp.get "A", CacheOp.get "B"] "C" c5WitnessState (by decide) hops (by decide)
      rfl rfl (by decide)).1
  · exact (certCache_bound_amended.2 Unit (fun _ => ()) 2
      [CacheOp.get "A", CacheOp.get "B"] "C" c5WitnessState (by decide) hops (by decide)
      rfl rfl (by decide)).2 (by decide)

/-! ## Claim C6: path pattern compilation and parameter extraction -/

theorem descendFind_eq_some {β : Type} {f : Nat → Option β} {n : Nat} {r : β}
    (h : descendFind f n = some r) : ∃ k, f k = some r := by
  induction n with
  | zero => simp [descendFind] at h
  | succ k ih =>
    rw [descendFind] at h
    cases hf : f (k + 1) with
    | some v =>
      rw [hf] at h
      exact ⟨k + 1, hf.trans (by simpa using h)⟩
    | none =>
      rw [hf] at h
      exact ih h

/-- Every successful anchored match produces exactly one capture per
parameter token. -/
theorem matchToks_caps_length {ts : List PatternToken} {s : List Char}
    {caps : List (List Char)} (h : matchToks ts s = some caps) :
    caps.length = (ts.filterMap paramNameOf).length := by
  induction ts generalizing s caps with
  | nil =>
    simp only [matchToks] at h
    split at h
    · simp only [Option.some.injEq] at h
      simp [← h]
    · exact absurd h (by simp)
  | cons t ts ih =>
    cases t with
    | lit c =>
      cases s with
      | nil => simp [matchToks] at h
      | cons d ds =>
        simp only [matchToks] at h
        split at h
        · simpa [paramNameOf] using ih h
        · exact absurd h (by simp)
    | param nm =>
      simp only [matchToks] at h
      obtain ⟨k, hk⟩ := descendFind_eq_some h
      rw [Option.map_eq_some'] at hk
      obtain ⟨caps', hm, heq⟩ := hk
      subst heq
      simpa [paramNameOf] using ih hm

theorem objSet_append_of_not_mem {o : List (String × String)} {k : String} (v : String)
    (h : ∀ p ∈ o, p.1 ≠ k) : objSet o k v = o ++ [(k, v)] := by
  have hany : o.any (fun p => p.1 = k) = false := by
    rw [List.any_eq_false]
    intro p hp
    simpa using h p hp
  simp [objSet, hany]

theorem foldl_objSet_pairs :
    ∀ (pairs acc : List (String × String)),
      (pairs.map Prod.fst).Nodup →
      (∀ p ∈ acc, ∀ q ∈ pairs, p.1 ≠ q.1) →
      pairs.foldl (fun o p => objSet o p.1 p.2) acc = acc ++ pairs := by
  intro pairs
  induction pairs with
  | nil => intro acc _ _; simp
  | cons q qs ih =>
    intro acc hnd hdisj
    obtain ⟨k, v⟩ := q
    have hstep : objSet acc k v = acc ++ [(k, v)] :=
      objSet_append_of_not_mem v (fun p hp => hdisj p hp (k, v) (by simp))
    have hknotqs : k ∉ qs.map Prod.fst := (List.nodup_cons.mp (by simpa using hnd)).1
    have hnd' : (qs.map Prod.fst).Nodup := (List.nodup_cons.mp (by simpa using hnd)).2
    have hdisj' : ∀ p ∈ acc ++ [(k, v)], ∀ q' ∈ qs, p.1 ≠ q'.1 := by
      intro p hp q' hq'
      rcases List.mem_append.mp hp with h1 | h1
      · exact hdisj p h1 q' (List.mem_cons_of_mem _ hq')
      · simp only [List.mem_cons, List.not_mem_nil, or_false] at h1
        subst h1
        intro hcontra
        exact hknotqs (List.mem_map.mpr ⟨q', hq', hcontra.symm⟩)
    calc ((k, v) :: qs).foldl (fun o p => objSet o p.1 p.2) acc
        = qs.foldl (fun o p => objSet o p.1 p.2) (objSet acc k v) := by simp
      _ = qs.foldl (fun o p => objSet o p.1 p.2) (acc ++ [(k, v)]) := by rw [hstep]
      _ = (acc ++ [(k, v)]) ++ qs := ih _ hnd' hdisj'
      _ = acc ++ ((k, v) :: qs) := by simp

/-- C6: a successful match of a compiled pattern yields one capture per
recorded parameter name; extraction binds the recorded names, in
declaration order, to the captures in order (when the names are
distinct, which duplicate-free patterns guarantee); and the compiled
pattern is anchored: the reference pattern accepts exactly the full
paths, with the reference example extracting its single parameter and
rejecting both the shorter and the longer path. -/
theorem pathPattern_compilation :
    (∀ (pattern path : String) (caps : List (List Char)),
      matchToks (pathToRegexTokens pattern) path.data = some caps →
      caps.length = (pathToRegexParamNames pattern).length)
    ∧ (∀ (pattern path : String) (caps : List (List Char)),
      matchToks (pathToRegexTokens pattern) path.data = some caps →
      (pathToRegexParamNames pattern).Nodup →
      extractParams path pattern
        = (pathToRegexParamNames pattern).zip (caps.map fun c => String.mk c))
    ∧ pathToRegexParamNames "/api/users/:id" = ["id"]
    ∧ regexTest "/api/users/:id" "/api/users/123" = true
    ∧ extractParams "/api/users/123" "/api/users/:id" = [("id", "123")]
    ∧ regexTest "/api/users/:id" "/api/users" = false
    ∧ regexTest "/api/users/:id" "/api/users/123/posts" = false := by
  have hlen : ∀ (pattern path : String) (caps : List (List Char)),
      matchToks (pathToRegexTokens pattern) path.data = some caps →
      caps.length = (pathToRegexParamNames pattern).length := by
    intro pattern path caps h
    simpa [pathToRegexParamNames] using matchToks_caps_length h
  refine ⟨hlen, ?_, by decide, by decide, by decide, by decide, by decide⟩
  intro pattern path caps h hnd
  have hcl := hlen pattern path caps h
  rw [extractParams, h]
  have hfst : ((pathToRegexParamNames pattern).zip (caps.map fun c => String.mk c)).map
      Prod.fst = pathToRegexParamNames pattern := by
    apply List.map_fst_zip
    simp [hcl]
  refine (foldl_objSet_pairs _ [] ?_ ?_).trans (by simp)
  · rw [hfst]
    exact hnd
  · intro p hp
    simp at hp

/-- Witness for C6 on a two-parameter pattern. -/
theorem pathPattern_compilation_witness :
    matchToks (pathToRegexTokens "/a/:x/:y") "/a/b/c".data
      = some [['b'], ['c']]
    ∧ ([['b'], ['c']] : List (List Char)).length
        = (pathToRegexParamNames "/a/:x/:y").length
    ∧ extractParams "/a/b/c" "/a/:x/:y"
        = (pathToRegexParamNames "/a/:x/:y").zip ["b", "c"] := by
  refine ⟨by decide, ?_, ?_⟩
  · exact pathPattern_compilation.1 "/a/:x/:y" "/a/b/c" [['b'], ['c']] (by decide)
  · have h := pathPattern_compilation.2.1 "/a/:x/:y" "/a/b/c" [['b'], ['c']]
      (by decide) (by decide)
    simpa using h

/-! ## Claim C8: MITM tunnel request framing -/

/-- The buffer contains the header terminator somewhere. -/
def HasTerm (b : List Char) : Prop := ∃ hh t, b = hh ++ term4 ++ t

/-- `hh` is the part of the buffer before the first header terminator
and `t` the part after it. -/
def FirstTermAt (b hh t : List Char) : Prop :=
  b = hh ++ term4 ++ t
  ∧ ∀ h' t', b = h' ++ term4 ++ t' → hh.length ≤ h'.length

theorem isPrefixOf_eq_true_iff : ∀ {l₁ l₂ : List Char},
    l₁.isPrefixOf l₂ = true ↔ ∃ t, l₂ = l₁ ++ t := by
  intro l₁
  induction l₁ with
  | nil => intro l₂; simp [List.isPrefixOf]
  | cons a as ih =>
    intro l₂
    cases l₂ with
    | nil =>
      simp only [List.isPrefixOf]
      constructor
      · intro h; simp at h
      · rintro ⟨t, ht⟩; simp at ht
    | cons b bs =>
      simp only [List.isPrefixOf, Bool.and_eq_true, beq_iff_eq]
      constructor
      · rintro ⟨hab, hpre⟩
        obtain ⟨t, ht⟩ := ih.mp hpre
        exact ⟨t, by rw [hab, ht]; simp⟩
      · rintro ⟨t, ht⟩
        simp only [List.cons_append, List.cons.injEq] at ht
        exact ⟨ht.1.symm, ih.mpr ⟨t, ht.2⟩⟩

theorem findTerm_none_char {b : List Char} (h : findTerm b = none) :
    ∀ m, term4.isPrefixOf (b.drop m) = false := by
  induction b with
  | nil =>
    intro m
    rw [List.drop_nil]
    rfl
  | cons c cs ih =>
    intro m
    cases hpre : term4.isPrefixOf (c :: cs) with
    | true => simp [findTerm, hpre] at h
    | false =>
      simp only [findTerm, hpre, Bool.false_eq_true, if_false, Option.map_eq_none'] at h
      cases m with
      | zero => simpa using hpre
      | succ m => exact ih h m

theorem findTerm_some_char {b : List Char} {n : Nat} (h : findTerm b = some n) :
    term4.isPrefixOf (b.drop n) = true
    ∧ ∀ m, m < n → term4.isPrefixOf (b.drop m) = false := by
  induction b generalizing n with
  | nil => simp [findTerm] at h
  | cons c cs ih =>
    cases hpre : term4.isPrefixOf (c :: cs) with
    | true =>
      simp only [findTerm, hpre, if_true] at h
      obtain rfl : n = 0 := by simpa using h.symm
      exact ⟨by simpa using hpre, fun m hm => absurd hm (by omega)⟩
    | false =>
      simp only [findTerm, hpre, Bool.false_eq_true, if_false, Option.map_eq_some'] at h
      obtain ⟨n', hn', rfl⟩ := h
      obtain ⟨h1, h2⟩ := ih hn'
      refine ⟨by simpa using h1, ?_⟩
      intro m hm
      cases m with
      | zero => simpa using hpre
      | succ m => exact h2 m (by omega)

theorem hasTerm_of_findTerm_some {b : List Char} {n : Nat} (h : findTerm b = some n) :
    HasTerm b := by
  obtain ⟨t2, ht2⟩ := isPrefixOf_eq_true_iff.mp (findTerm_some_char h).1
  exact ⟨b.take n, t2, by rw [List.append_assoc, ← ht2, List.take_append_drop]⟩

theorem findTerm_eq_of_firstTermAt {b hh t : List Char} (hft : FirstTermAt b hh t) :
    findTerm b = some hh.length := by
  obtain ⟨hb, hmin⟩ := hft
  cases hf : findTerm b with
  | none =>
    exfalso
    have := findTerm_none_char hf hh.length
    rw [hb, List.append_assoc, List.drop_left] at this
    have h2 : term4.isPrefixOf (term4 ++ t) = true := isPrefixOf_eq_true_iff.mpr ⟨t, rfl⟩
    rw [this] at h2
    exact absurd h2 (by simp)
  | some n =>
    obtain ⟨h1, h2⟩ := findTerm_some_char hf
    rcases lt_trichotomy n hh.length with hlt | heqn | hgt
    · exfalso
      obtain ⟨t2, ht2⟩ := isPrefixOf_eq_true_iff.mp h1
      have hbsplit : b = b.take n ++ term4 ++ t2 := by
        rw [List.append_assoc, ← ht2, List.take_append_drop]
      have hle := hmin _ _ hbsplit
      rw [List.length_take] at hle
      omega
    · rw [heqn]
    · exfalso
      have hpre : term4.isPrefixOf (b.drop hh.length) = true := by
        apply isPrefixOf_eq_true_iff.mpr
        exact ⟨t, by rw [hb, List.append_assoc, List.drop_left]⟩
      rw [h2 hh.length hgt] at hpre
      exact absurd hpre (by simp)

theorem firstTermAt_of_bounded {b hh t : List Char} (hb : b = hh ++ term4 ++ t)
    (hbd : ∀ m, m < hh.length → term4.isPrefixOf (b.drop m) = false) :
    FirstTermAt b hh t := by
  refine ⟨hb, ?_⟩
  intro h' t' hb'
  by_contra hlt
  push_neg at hlt
  have hpre : term4.isPrefixOf (b.drop h'.length) = true :=
    isPrefixOf_eq_true_iff.mpr ⟨t', by rw [hb', List.append_assoc, List.drop_left]⟩
  rw [hbd _ hlt] at hpre
  exact absurd hpre (by simp)

theorem findCL_none_of : ∀ (hd : List Char), (∀ i, clFromHere (hd.drop i) = none) →
    findCL hd = none := by
  intro hd
  induction hd with
  | nil => intro _; rfl
  | cons c cs ih =>
    intro h
    have h0 := h 0
    rw [List.drop_zero] at h0
    rw [findCL, h0]
    exact ih fun i => by simpa using h (i + 1)

/-- C8: one step of the tunnel framing loop, characterized against the
first header terminator.  A buffer without a terminator dispatches
nothing and is retained unchanged; a buffer whose bytes after the first
terminator fall short of the parsed content length likewise dispatches
nothing and is retained; otherwise exactly the header, the terminator
and content-length body bytes are dispatched and the remaining bytes are
retained for the next pipelined request; and a header with no
content-length match yields body length 0. -/
theorem tunnel_framing :
    (∀ b, ¬ HasTerm b → processBuffer b = (none, b))
    ∧ (∀ b hh t, FirstTermAt b hh t → t.length < parseContentLength hh →
        processBuffer b = (none, b))
    ∧ (∀ b hh t, FirstTermAt b hh t → parseContentLength hh ≤ t.length →
        processBuffer b = (some (hh ++ term4 ++ t.take (parseContentLength hh)),
          t.drop (parseContentLength hh)))
    ∧ (∀ hd, (∀ i, clFromHere (hd.drop i) = none) → parseContentLength hd = 0) := by
  have hkey : ∀ (b hh t : List Char), FirstTermAt b hh t →
      findTerm b = some hh.length ∧ b.take hh.length = hh
      ∧ b.length = hh.length + 4 + t.length := by
    intro b hh t hft
    refine ⟨findTerm_eq_of_firstTermAt hft, ?_, ?_⟩
    · rw [hft.1, List.append_assoc]
      exact List.take_left _ _
    · rw [hft.1]
      simp [term4]
      omega
  refine ⟨?_, ?_, ?_, ?_⟩
  · intro b hnot
    cases hf : findTerm b with
    | none => simp [processBuffer, hf]
    | some n => exact absurd (hasTerm_of_findTerm_some hf) hnot
  · intro b hh t hft hshort
    obtain ⟨hfind, htake, hblen⟩ := hkey b hh t hft
    simp only [processBuffer, hfind, htake]
    rw [if_pos (by omega)]
  · intro b hh t hft hlong
    obtain ⟨hfind, htake, hblen⟩ := hkey b hh t hft
    simp only [processBuffer, hfind, htake]
    rw [if_neg (by omega)]
    have hb2 : b = (hh ++ term4) ++ t := by
      rw [hft.1]
    have hlen2 : (hh ++ term4).length = hh.length + 4 := by
      simp [term4]
    have hn : hh.length + 4 + parseContentLength hh
        = (hh ++ term4).length + parseContentLength hh := by
      rw [hlen2]
    rw [hb2, hn, List.take_append, List.drop_append]
  · intro hd h
    rw [parseContentLength, findCL_none_of hd h]
    rfl

/-- Fixture for the C8 witness: the header bytes of a reference request
with a declared content length of 3. -/
def c8Header : List Char := "POST /orders HTTP/1.1\r\ncontent-length: 3".data

/-- Fixture for the C8 witness: payload bytes — a 3-byte body followed
by two pipelined leftover bytes. -/
def c8Body : List Char := "abcXY".data

/-- Witness for C8: on the fixture buffer, exactly the header, the
terminator and the three body bytes are dispatched, and the leftover
bytes XY are retained. -/
theorem tunnel_framing_witness :
    processBuffer (c8Header ++ term4 ++ c8Body)
      = (some (c8Header ++ term4 ++ "abc".data), "XY".data) := by
  have hft : FirstTermAt (c8Header ++ term4 ++ c8Body) c8Header c8Body :=
    firstTermAt_of_bounded rfl (by decide)
  have h := tunnel_framing.2.2.1 (c8Header ++ term4 ++ c8Body) c8Header c8Body hft
    (by decide)
  rw [h]
  rfl

end MockMate
